import Mathlib

/-! realtime-chat-server: registry, fan-out and pumps of `main.go`

A shallow embedding of `src/main.go`:

* `Message` with its struct tags and the part of `encoding/json` that reads them;
* Go channels (`Chan`) as used for the per-client mailbox `Client.send`;
* `ClientManager` with the two `select` cases of `ClientManager.start`
  and the helper `ClientManager.send`;
* the pumps `Client.read` (the message it submits) and `Client.write`.

Pointers `*Client` are addresses (`ClientPtr`); the struct a pointer refers to is
looked up in `ClientManager.heap`.  The key set of `map[*Client]bool` is a list;
`range` visits every distinct key once, in the order of that list.  Go leaves the order
of `range` over a map open; the general statements below hold for every list, hence for
every order.
-/

namespace ChatServer

/-- The Go type `[]byte` of an encoded message. -/
abbrev Bytes := String

/-- The Go type `*Client`. -/
abbrev ClientPtr := Nat

/-! ## `Message` and `json.Marshal` -/

/-- The struct `Message` (main.go, lines 30-34). -/
structure Message where
  Sender : String
  Recipient : String
  Content : String
deriving DecidableEq

/-- One exported string field of a struct as `encoding/json` sees it: the text of its
`json:"..."` tag and its value. -/
structure Field where
  tag : List Char
  value : String

/-- The fields of `Message` in declaration order, with the tag texts of lines 31-33. -/
def Message.fields (m : Message) : List Field :=
  [ { tag := "sender, omitempty".toList, value := m.Sender },
    { tag := "recipient,omitempty".toList, value := m.Recipient },
    { tag := "content,omitempty".toList, value := m.Content } ]

/-- Go `strings.Cut(s, ",")`: the text before the first comma and the text after it. -/
def cutComma : List Char → List Char × List Char
  | [] => ([], [])
  | c :: cs => if c = ',' then ([], cs) else ((c :: (cutComma cs).1), (cutComma cs).2)

/-- The loop of `tagOptions.Contains` with the piece read so far in `acc` (reversed):
a comma ends the piece, and the loop stops when nothing is left after a comma. -/
def optionNamesAux : List Char → List Char → List (List Char)
  | [], acc => [acc.reverse]
  | c :: cs, acc =>
    if c = ',' then
      acc.reverse :: (match cs with
        | [] => []
        | _ :: _ => optionNamesAux cs [])
    else optionNamesAux cs (c :: acc)

/-- All comma separated pieces of an option text, as produced by the repeated
`strings.Cut(s, ",")` of `tagOptions.Contains`; the empty text has no piece. -/
def optionNames : List Char → List (List Char)
  | [] => []
  | c :: cs => optionNamesAux (c :: cs) []

/-- The function `parseTag` of `encoding/json`: name and option text of a tag. -/
def parseTag (tag : List Char) : List Char × List Char := cutComma tag

/-- The method `tagOptions.Contains` of `encoding/json`: an option is present when one of
the comma separated pieces is equal to it, character for character. -/
def tagOptionsContains (opts : List Char) (optionName : String) : Bool :=
  decide (optionName.toList ∈ optionNames opts)

/-- The key under which a field is encoded: the name part of the tag (the three names
of this program are non-empty and pass `isValidTag`, so the field name is not used). -/
def Field.name (f : Field) : String := String.mk (parseTag f.tag).1

/-- Whether `omitempty` is in force for a field. -/
def Field.omitEmpty (f : Field) : Bool := tagOptionsContains (parseTag f.tag).2 "omitempty"

/-- The members of the JSON object `json.Marshal` writes for a struct of string fields:
a field is skipped when `omitempty` is in force and its value is the empty string. -/
def encodeFields : List Field → List (String × String)
  | [] => []
  | f :: fs =>
    if f.omitEmpty && decide (f.value = "") then encodeFields fs
    else (f.name, f.value) :: encodeFields fs

/-- The members of the JSON object encoding a `Message`. -/
def Message.members (m : Message) : List (String × String) := encodeFields m.fields

/-- The text of a JSON object with the given members; `quote` is the string literal
encoder of `encoding/json`. -/
def renderObject (quote : String → String) (kvs : List (String × String)) : String :=
  "\x7b" ++ ",".intercalate (kvs.map fun kv => quote kv.1 ++ ":" ++ quote kv.2) ++ "\x7d"

/-- The call `json.Marshal(&Message{...})`. -/
def jsonMarshal (quote : String → String) (m : Message) : Bytes :=
  renderObject quote m.members

/-- The message built in the register case of `start` (lines 50-52). -/
def connectMessage : Message :=
  { Sender := "", Recipient := "", Content := "/A new socket has connected," }

/-! ## Channels -/

/-- A Go channel of element type `[]byte`.  `cap`, `buf`, `recvq` and `closed` are the
state of the runtime channel; `sent` and `nread` record history and influence nothing. -/
structure Chan where
  /-- The capacity given to `make`. -/
  cap : Nat
  /-- The buffered values, oldest first. -/
  buf : List Bytes
  /-- Whether the receiving goroutine is parked in `<-ch`. -/
  recvq : Bool
  /-- Whether `close(ch)` has been executed. -/
  closed : Bool
  /-- Every value a send on this channel has completed with, oldest first. -/
  sent : List Bytes
  /-- The number of values receives on this channel have returned. -/
  nread : Nat
deriving DecidableEq

/-- The call `make(chan []byte, n)`; `make(chan []byte)` is `Chan.make 0`. -/
def Chan.make (n : Nat) : Chan :=
  { cap := n, buf := [], recvq := false, closed := false, sent := [], nread := 0 }

/-- The result of attempting the send `ch <- m` without waiting. -/
inductive SendResult where
  /-- The send completed; the channel is now `ch`. -/
  | ok (ch : Chan)
  /-- No receiver is parked and the buffer has no room. -/
  | wouldBlock
  /-- The channel is closed: the runtime panics. -/
  | panic
deriving DecidableEq

/-- Attempt `ch <- m`: a closed channel panics; a parked receiver is handed the value;
otherwise the value is buffered if there is room. -/
def Chan.trySend (ch : Chan) (m : Bytes) : SendResult :=
  if ch.closed then .panic
  else if ch.recvq then
    .ok { ch with recvq := false, sent := ch.sent ++ [m], nread := ch.nread + 1 }
  else if ch.buf.length < ch.cap then
    .ok { ch with buf := ch.buf ++ [m], sent := ch.sent ++ [m] }
  else .wouldBlock

/-- The call `close(ch)`; `none` is the panic on closing a closed channel.  A parked
receiver is woken. -/
def Chan.close (ch : Chan) : Option Chan :=
  if ch.closed then none else some { ch with closed := true, recvq := false }

/-- The receiving goroutine executes `<-ch`: it takes the oldest buffered value, or
returns at once on a closed channel, or parks. -/
def Chan.recv (ch : Chan) : Chan :=
  match ch.buf with
  | _ :: rest => { ch with buf := rest, nread := ch.nread + 1 }
  | [] => if ch.closed then ch else { ch with recvq := true }

/-- Whether a send on the channel can complete without waiting. -/
def Chan.canAccept (ch : Chan) : Bool :=
  !ch.closed && (ch.recvq || decide (ch.buf.length < ch.cap))

/-! ## The registry -/

/-- The struct `Client` (lines 13-17) as the control loop uses it: the `id` and the
mailbox `send`. -/
structure Client where
  id : String
  send : Chan
deriving DecidableEq

/-- The struct `ClientManager` (lines 21-26): the keys of `clients` (every value stored
is `true`) and the memory the keys point into.  The three channels of the manager are
represented by the requests taken from them (`Request`). -/
structure ClientManager where
  clients : List ClientPtr
  heap : ClientPtr → Client

/-- How a statement of the control loop ends. -/
inductive Outcome where
  /-- It ran to completion. -/
  | done (s : ClientManager)
  /-- The goroutine is parked in a channel send; `s` is the state at that point. -/
  | blocked (s : ClientManager)
  /-- A runtime panic. -/
  | panicked

/-- Store `ch` as the mailbox of the client at `conn`. -/
def ClientManager.setChan (s : ClientManager) (conn : ClientPtr) (ch : Chan) : ClientManager :=
  { s with heap := fun p => if p = conn then { s.heap conn with send := ch } else s.heap p }

/-- The statement `manager.clients[conn] = true`. -/
def ClientManager.insert (s : ClientManager) (conn : ClientPtr) : ClientManager :=
  { s with clients := if conn ∈ s.clients then s.clients else conn :: s.clients }

/-- The statement `delete(manager.clients, conn)`. -/
def ClientManager.delete (s : ClientManager) (conn : ClientPtr) : ClientManager :=
  { s with clients := s.clients.filter fun p => decide (p ≠ conn) }

/-- A `for conn := range manager.clients` loop: the body is run for the keys in turn
and the loop stops as soon as the body does not complete. -/
def rangeLoop (body : ClientManager → ClientPtr → Outcome) :
    List ClientPtr → ClientManager → Outcome
  | [], s => .done s
  | conn :: rest, s =>
    match body s conn with
    | .done s1 => rangeLoop body rest s1
    | .blocked s1 => .blocked s1
    | .panicked => .panicked

/-- The body of the broadcast loop (lines 57-62):
`select { case conn.send <- message: default: close(conn.send); delete(manager.clients, conn) }`. -/
def ClientManager.offer (message : Bytes) (s : ClientManager) (conn : ClientPtr) : Outcome :=
  match (s.heap conn).send.trySend message with
  | .ok ch => .done (s.setChan conn ch)
  | .wouldBlock =>
    match (s.heap conn).send.close with
    | some ch => .done ((s.setChan conn ch).delete conn)
    | none => .panicked
  | .panic => .panicked

/-- The broadcast case of `start` (lines 55-63). -/
def ClientManager.broadcastCase (s : ClientManager) (message : Bytes) : Outcome :=
  rangeLoop (ClientManager.offer message) s.clients.dedup s

/-- The body of the loop of `send` (lines 71-73):
`if conn != ignore { conn.send <- message }`, a send that waits. -/
def ClientManager.sendTo (message : Bytes) (ignore : ClientPtr) (s : ClientManager)
    (conn : ClientPtr) : Outcome :=
  if conn ≠ ignore then
    match (s.heap conn).send.trySend message with
    | .ok ch => .done (s.setChan conn ch)
    | .wouldBlock => .blocked s
    | .panic => .panicked
  else .done s

/-- The method `ClientManager.send` (lines 69-75). -/
def ClientManager.send (s : ClientManager) (message : Bytes) (ignore : ClientPtr) : Outcome :=
  rangeLoop (ClientManager.sendTo message ignore) s.clients.dedup s

/-- The register case of `start` (lines 48-53). -/
def ClientManager.registerCase (quote : String → String) (s : ClientManager)
    (conn : ClientPtr) : Outcome :=
  (s.insert conn).send (jsonMarshal quote connectMessage) conn

/-- What a goroutine submits to the manager: a value sent on `manager.register`,
`manager.unregister` or `manager.broadcast`. -/
inductive Request where
  | register (conn : ClientPtr)
  | unregister (conn : ClientPtr)
  | broadcast (message : Bytes)
deriving DecidableEq

/-- One pass of the `for { select { ... } }` of `start` (lines 46-65) offered a request.
The `select` has a case for `manager.register` and one for `manager.broadcast`; `none`
means that no case receives from the channel of the request, which is then never taken. -/
def ClientManager.start (quote : String → String) (s : ClientManager) :
    Request → Option Outcome
  | .register conn => some (s.registerCase quote conn)
  | .broadcast message => some (s.broadcastCase message)
  | .unregister _ => none

/-- What happens around the registry: the control loop takes a request in one of its two
cases, or the write pump of a client executes the receive of line 105. -/
inductive Event where
  | register (conn : ClientPtr)
  | broadcast (message : Bytes)
  | recv (conn : ClientPtr)
deriving DecidableEq

/-- The effect of one event. -/
def ClientManager.step (quote : String → String) (s : ClientManager) : Event → Outcome
  | .register conn => s.registerCase quote conn
  | .broadcast message => s.broadcastCase message
  | .recv conn => .done (s.setChan conn (s.heap conn).send.recv)

/-- The effect of a sequence of events; it ends where the control loop parks or panics.
An execution in which a send of the control loop waits until the pump of the connection
arrives and then completes is the sequence with that receive before the request. -/
def ClientManager.run (quote : String → String) : List Event → ClientManager → Outcome
  | [], s => .done s
  | e :: es, s =>
    match s.step quote e with
    | .done s1 => ClientManager.run quote es s1
    | .blocked s1 => .blocked s1
    | .panicked => .panicked

/-! ## The pumps -/

/-- The message `Client.read` submits for a payload (lines 90-94):
`json.Marshal(&Message{Sender: c.id, Content: string(message)})`. -/
def Client.readMessage (quote : String → String) (c : Client) (payload : String) : Bytes :=
  jsonMarshal quote { Sender := c.id, Recipient := "", Content := payload }

/-- A frame handed to `c.socket.WriteMessage`. -/
inductive Frame where
  | text (message : Bytes)
  | close
deriving DecidableEq

/-- The transport `*websocket.Conn` as `Client.write` uses it. -/
structure Socket where
  /-- Whether writes fail (the peer is gone). -/
  broken : Bool
  /-- Whether `Close()` has been called. -/
  closed : Bool
  /-- The frames given to `WriteMessage`, in call order, each with whether the call
  returned an error. -/
  writes : List (Frame × Bool)
deriving DecidableEq

/-- The call `c.socket.WriteMessage(...)`: the new transport and whether an error is
returned. -/
def Socket.WriteMessage (k : Socket) (f : Frame) : Socket × Bool :=
  ({ k with writes := k.writes ++ [(f, k.broken || k.closed)] }, k.broken || k.closed)

/-- The call `c.socket.Close()`. -/
def Socket.Close (k : Socket) : Socket := { k with closed := true }

/-- What a receive `message, ok := <-c.send` returns. -/
inductive Received where
  /-- A value, with `ok = true`. -/
  | item (message : Bytes)
  /-- The channel is closed and empty, `ok = false`. -/
  | closed
deriving DecidableEq

/-- The state of the write pump after the receives it was given. -/
structure WriteState where
  socket : Socket
  /-- The number of receives on the mailbox that have returned. -/
  taken : Nat
  /-- Whether `write` has returned (and its deferred function has run). -/
  returned : Bool
deriving DecidableEq

/-- The loop of `Client.write` (lines 98-113) against the successive results of its
receive; when they are used up the pump is parked in the receive.  The value returned
by `WriteMessage` is dropped, as in lines 107 and 110. -/
def Client.writeLoop : List Received → Socket → Nat → WriteState
  | [], k, n => { socket := k, taken := n, returned := false }
  | .closed :: _, k, n =>
    { socket := (k.WriteMessage .close).1.Close, taken := n + 1, returned := true }
  | .item message :: rest, k, n =>
    Client.writeLoop rest (k.WriteMessage (.text message)).1 (n + 1)

/-- The pump `Client.write` started on a transport. -/
def Client.write (k : Socket) (rs : List Received) : WriteState :=
  Client.writeLoop rs k 0

/-! ## Auxiliary definitions for the statements -/

/-- The channel after a completed send of `m`. -/
def Chan.pushed (ch : Chan) (m : Bytes) : Chan :=
  if ch.recvq then { ch with recvq := false, sent := ch.sent ++ [m], nread := ch.nread + 1 }
  else { ch with buf := ch.buf ++ [m], sent := ch.sent ++ [m] }

/-- The channel after `close`. -/
def Chan.shut (ch : Chan) : Chan := { ch with closed := true, recvq := false }

/-- The channel after the `select` of the broadcast loop. -/
def Chan.offered (ch : Chan) (m : Bytes) : Chan :=
  if ch.canAccept then ch.pushed m else ch.shut

/-- Events that are not a registration. -/
def Event.isFanout : Event → Bool
  | .register _ => false
  | .broadcast _ => true
  | .recv _ => true

/-- The messages of the broadcast events of a sequence, in order. -/
def broadcasts : List Event → List Bytes
  | [] => []
  | .broadcast m :: es => m :: broadcasts es
  | .register _ :: es => broadcasts es
  | .recv _ :: es => broadcasts es

/-- The connections registered by a sequence of events, in order. -/
def registered : List Event → List ClientPtr
  | [] => []
  | .register c :: es => c :: registered es
  | .broadcast _ :: es => registered es
  | .recv _ :: es => registered es

/-- The mailbox `ch` of connection `R` followed through a sequence of events while `R`
is live: every broadcast has to complete its send on it and every receive of the pump
of `R` is applied.  The result is `none` as soon as a broadcast reaches the mailbox when
it cannot accept. -/
def Chan.along (R : ClientPtr) : List Event → Chan → Option Chan
  | [], ch => some ch
  | .broadcast m :: es, ch =>
    match ch.trySend m with
    | .ok ch1 => Chan.along R es ch1
    | .wouldBlock => none
    | .panic => none
  | .recv d :: es, ch => Chan.along R es (if d = R then ch.recv else ch)
  | .register _ :: es, ch => Chan.along R es ch

/-- A string literal encoder for texts in which no character needs escaping. -/
def plainQuote (x : String) : String := "\"" ++ x ++ "\""

/-- A mailbox as `wsPage` creates it (line 139) whose pump is not in its receive. -/
def idleChan : Chan := Chan.make 0

/-- A mailbox as `wsPage` creates it whose pump is parked in the receive of line 105. -/
def waitingChan : Chan := { Chan.make 0 with recvq := true }

/-- A registry with the given live connections; the client at address `p` has the id
`name p` and the mailbox `chan p`. -/
def registryOf (live : List ClientPtr) (name : ClientPtr → String) (chan : ClientPtr → Chan) :
    ClientManager :=
  { clients := live, heap := fun p => { id := name p, send := chan p } }

/-- The ids used in the examples: A at address 1, B at 2, C elsewhere. -/
def demoName (p : ClientPtr) : String := if p = 1 then "A" else if p = 2 then "B" else "C"

/-- A and B live; the pump of A waits for a message, the pump of B is busy. -/
def registryAB : ClientManager :=
  registryOf [1, 2] demoName fun p => if p = 1 then waitingChan else idleChan

/-- Only connection 1 is live and its pump is busy. -/
def registryBusy : ClientManager := registryOf [1] demoName fun _ => idleChan

/-- Connections 1 and 2 live, the pump of 2 waits and the pump of 1 is busy. -/
def registryBA : ClientManager :=
  registryOf [1, 2] demoName fun p => if p = 2 then waitingChan else idleChan

/-- The registry at process start: nobody is live, every client that will connect has a
fresh mailbox. -/
def registryStart : ClientManager := registryOf [] demoName fun _ => Chan.make 0

/-- A transport whose peer is gone: every write fails. -/
def brokenSocket : Socket := { broken := true, closed := false, writes := [] }

/-! ## Channel lemmas -/

theorem Chan.trySend_of_canAccept (ch : Chan) (m : Bytes) (h : ch.canAccept = true) :
    ch.trySend m = .ok (ch.pushed m) := by
  unfold Chan.canAccept at h
  unfold Chan.trySend Chan.pushed
  cases hc : ch.closed <;> cases hr : ch.recvq <;> simp_all

theorem Chan.trySend_of_full (ch : Chan) (m : Bytes) (ho : ch.closed = false)
    (h : ch.canAccept = false) : ch.trySend m = .wouldBlock := by
  unfold Chan.canAccept at h
  unfold Chan.trySend
  cases hr : ch.recvq <;> simp_all

theorem Chan.close_of_open (ch : Chan) (ho : ch.closed = false) : ch.close = some ch.shut := by
  simp [Chan.close, Chan.shut, ho]

theorem Chan.closed_of_canAccept (ch : Chan) (h : ch.canAccept = true) : ch.closed = false := by
  unfold Chan.canAccept at h
  cases hc : ch.closed <;> simp_all

@[simp] theorem Chan.pushed_sent (ch : Chan) (m : Bytes) : (ch.pushed m).sent = ch.sent ++ [m] := by
  unfold Chan.pushed; split <;> rfl

@[simp] theorem Chan.pushed_closed (ch : Chan) (m : Bytes) : (ch.pushed m).closed = ch.closed := by
  unfold Chan.pushed; split <;> rfl

@[simp] theorem Chan.pushed_cap (ch : Chan) (m : Bytes) : (ch.pushed m).cap = ch.cap := by
  unfold Chan.pushed; split <;> rfl

@[simp] theorem Chan.shut_sent (ch : Chan) : ch.shut.sent = ch.sent := rfl

@[simp] theorem Chan.shut_closed (ch : Chan) : ch.shut.closed = true := rfl

@[simp] theorem Chan.recv_sent (ch : Chan) : ch.recv.sent = ch.sent := by
  unfold Chan.recv; split
  · rfl
  · split <;> rfl

@[simp] theorem Chan.recv_closed (ch : Chan) : ch.recv.closed = ch.closed := by
  unfold Chan.recv; split
  · rfl
  · split <;> rfl

@[simp] theorem Chan.recv_cap (ch : Chan) : ch.recv.cap = ch.cap := by
  unfold Chan.recv; split
  · rfl
  · split <;> rfl

/-! ## The broadcast loop -/

theorem offer_of_open (m : Bytes) (s : ClientManager) (k : ClientPtr)
    (ho : (s.heap k).send.closed = false) :
    ClientManager.offer m s k =
      .done (if (s.heap k).send.canAccept then s.setChan k ((s.heap k).send.pushed m)
             else (s.setChan k (s.heap k).send.shut).delete k) := by
  unfold ClientManager.offer
  cases h : (s.heap k).send.canAccept
  · rw [Chan.trySend_of_full _ _ ho h, Chan.close_of_open _ ho]; simp
  · rw [Chan.trySend_of_canAccept _ _ h]; simp

/-- The broadcast loop over distinct keys with open mailboxes completes; afterwards a
connection is live iff it was live and, when it was visited, could accept; each visited
mailbox holds the result of its own `select` and nothing else changed. -/
theorem rangeLoop_offer (m : Bytes) :
    ∀ (keys : List ClientPtr) (s : ClientManager), keys.Nodup →
      (∀ c ∈ keys, (s.heap c).send.closed = false) →
      ∃ s1, rangeLoop (ClientManager.offer m) keys s = .done s1 ∧
        (∀ c, c ∈ s1.clients ↔ c ∈ s.clients ∧ (c ∈ keys → (s.heap c).send.canAccept = true)) ∧
        (∀ c, s1.heap c =
          if c ∈ keys then { s.heap c with send := (s.heap c).send.offered m } else s.heap c) := by
  intro keys
  induction keys with
  | nil => intro s _ _; exact ⟨s, rfl, by simp, by simp⟩
  | cons k ks ih =>
    intro s hnd hopen
    have hk : k ∉ ks := (List.nodup_cons.mp hnd).1
    have hks : ks.Nodup := (List.nodup_cons.mp hnd).2
    have hok : (s.heap k).send.closed = false := hopen k (List.mem_cons_self _ _)
    simp only [rangeLoop, offer_of_open m s k hok]
    cases hacc : (s.heap k).send.canAccept
    · -- the mailbox of k cannot accept: closed and deleted
      have hopen1 : ∀ c ∈ ks,
          (((s.setChan k (s.heap k).send.shut).delete k).heap c).send.closed = false := by
        intro c hc
        have hck : c ≠ k := fun e => hk (e ▸ hc)
        simpa [ClientManager.delete, ClientManager.setChan, hck] using
          hopen c (List.mem_cons_of_mem _ hc)
      obtain ⟨s1, hrun, hmem, hheap⟩ := ih _ hks hopen1
      refine ⟨s1, by simpa using hrun, ?_, ?_⟩
      · intro c
        rw [hmem c]
        by_cases hck : c = k
        · subst hck
          simp [ClientManager.delete, ClientManager.setChan, hacc]
        · simp [ClientManager.delete, ClientManager.setChan, hck]
      · intro c
        rw [hheap c]
        by_cases hck : c = k
        · subst hck
          simp [ClientManager.delete, ClientManager.setChan, hk, Chan.offered, hacc]
        · simp [ClientManager.delete, ClientManager.setChan, hck]
    · -- the mailbox of k accepts
      have hopen1 : ∀ c ∈ ks,
          ((s.setChan k ((s.heap k).send.pushed m)).heap c).send.closed = false := by
        intro c hc
        have hck : c ≠ k := fun e => hk (e ▸ hc)
        simpa [ClientManager.setChan, hck] using hopen c (List.mem_cons_of_mem _ hc)
      obtain ⟨s1, hrun, hmem, hheap⟩ := ih _ hks hopen1
      refine ⟨s1, by simpa using hrun, ?_, ?_⟩
      · intro c
        rw [hmem c]
        by_cases hck : c = k
        · subst hck
          simp [ClientManager.setChan, hacc, hk]
        · simp [ClientManager.setChan, hck]
      · intro c
        rw [hheap c]
        by_cases hck : c = k
        · subst hck
          simp [ClientManager.setChan, hk, Chan.offered, hacc]
        · simp [ClientManager.setChan, hck]

/-- The broadcast case on a registry whose live connections have open mailboxes. -/
theorem broadcastCase_spec (s : ClientManager) (m : Bytes)
    (hopen : ∀ c ∈ s.clients, (s.heap c).send.closed = false) :
    ∃ s1, s.broadcastCase m = .done s1 ∧
      (∀ c, c ∈ s1.clients ↔ c ∈ s.clients ∧ (s.heap c).send.canAccept = true) ∧
      (∀ c, s1.heap c =
        if c ∈ s.clients then { s.heap c with send := (s.heap c).send.offered m }
        else s.heap c) := by
  obtain ⟨s1, hrun, hmem, hheap⟩ := rangeLoop_offer m s.clients.dedup s (List.nodup_dedup _)
    (fun c hc => hopen c (List.mem_dedup.mp hc))
  refine ⟨s1, hrun, ?_, ?_⟩
  · intro c
    rw [hmem c]
    constructor
    · rintro ⟨h1, h2⟩
      exact ⟨h1, h2 (List.mem_dedup.mpr h1)⟩
    · rintro ⟨h1, h2⟩
      exact ⟨h1, fun _ => h2⟩
  · intro c
    rw [hheap c]
    simp [List.mem_dedup]

/-- After the broadcast case the live connections still have open mailboxes. -/
theorem broadcastCase_open (s s1 : ClientManager) (m : Bytes)
    (hopen : ∀ c ∈ s.clients, (s.heap c).send.closed = false)
    (hrun : s.broadcastCase m = .done s1) :
    ∀ c ∈ s1.clients, (s1.heap c).send.closed = false := by
  obtain ⟨s2, hrun2, hmem, hheap⟩ := broadcastCase_spec s m hopen
  rw [hrun] at hrun2
  cases hrun2
  intro c hc
  obtain ⟨hlive, hacc⟩ := (hmem c).mp hc
  rw [hheap c]
  simp [hlive, Chan.offered, hacc, hopen c hlive]

/-- C1. Broadcast on a registry whose live connections have open mailboxes (the states
the control loop reaches) completes and treats every live connection on its own: a
connection whose mailbox can accept the message without blocking gets it appended at the
back and stays live; any other live connection has its mailbox closed, receives nothing
and leaves the live set.  No connection is added and the client behind a pointer outside
the live set is left as it was. -/
theorem broadcast_enqueue_or_evict (s : ClientManager) (message : Bytes)
    (hopen : ∀ c ∈ s.clients, (s.heap c).send.closed = false) :
    ∃ s1, s.broadcastCase message = .done s1 ∧
      (∀ c ∈ s.clients, (s.heap c).send.canAccept = true →
        c ∈ s1.clients ∧ (s1.heap c).send.sent = (s.heap c).send.sent ++ [message] ∧
        (s1.heap c).send.closed = false) ∧
      (∀ c ∈ s.clients, (s.heap c).send.canAccept = false →
        c ∉ s1.clients ∧ (s1.heap c).send.sent = (s.heap c).send.sent ∧
        (s1.heap c).send.closed = true) ∧
      (∀ c, c ∈ s1.clients → c ∈ s.clients) ∧
      (∀ c, c ∉ s.clients → s1.heap c = s.heap c) := by
  obtain ⟨s1, hrun, hmem, hheap⟩ := broadcastCase_spec s message hopen
  refine ⟨s1, hrun, ?_, ?_, ?_, ?_⟩
  · intro c hc hacc
    refine ⟨(hmem c).mpr ⟨hc, hacc⟩, ?_, ?_⟩
    · rw [hheap c]; simp [hc, Chan.offered, hacc]
    · rw [hheap c]; simp [hc, Chan.offered, hacc, hopen c hc]
  · intro c hc hacc
    refine ⟨fun h => ?_, ?_, ?_⟩
    · have := ((hmem c).mp h).2
      rw [hacc] at this
      exact Bool.noConfusion this
    · rw [hheap c]; simp [hc, Chan.offered, hacc]
    · rw [hheap c]; simp [hc, Chan.offered, hacc]
  · intro c hc
    exact ((hmem c).mp hc).1
  · intro c hc
    rw [hheap c]; simp [hc]

/-! ## The loop of `send` -/

/-- When every visited mailbox other than the excluded one can accept, the loop of
`send` completes and has pushed the message on exactly those mailboxes. -/
theorem rangeLoop_sendTo_ready (m : Bytes) (ig : ClientPtr) :
    ∀ (keys : List ClientPtr) (s : ClientManager), keys.Nodup →
      (∀ c ∈ keys, c ≠ ig → (s.heap c).send.canAccept = true) →
      ∃ s1, rangeLoop (ClientManager.sendTo m ig) keys s = .done s1 ∧
        s1.clients = s.clients ∧
        (∀ c, s1.heap c =
          if c ∈ keys ∧ c ≠ ig then { s.heap c with send := (s.heap c).send.pushed m }
          else s.heap c) := by
  intro keys
  induction keys with
  | nil => intro s _ _; exact ⟨s, rfl, rfl, by simp⟩
  | cons k ks ih =>
    intro s hnd hready
    have hk : k ∉ ks := (List.nodup_cons.mp hnd).1
    have hks : ks.Nodup := (List.nodup_cons.mp hnd).2
    by_cases hig : k = ig
    · obtain ⟨s1, hrun, hcl, hheap⟩ :=
        ih s hks (fun c hc hne => hready c (List.mem_cons_of_mem _ hc) hne)
      refine ⟨s1, by simpa [rangeLoop, ClientManager.sendTo, hig] using hrun, hcl, ?_⟩
      intro c
      rw [hheap c]
      by_cases hck : c = k
      · subst hck; simp [hig]
      · simp [hck]
    · have hacc := hready k (List.mem_cons_self _ _) hig
      have hready1 : ∀ c ∈ ks, c ≠ ig →
          ((s.setChan k ((s.heap k).send.pushed m)).heap c).send.canAccept = true := by
        intro c hc hne
        have hck : c ≠ k := fun e => hk (e ▸ hc)
        simpa [ClientManager.setChan, hck] using hready c (List.mem_cons_of_mem _ hc) hne
      obtain ⟨s1, hrun, hcl, hheap⟩ := ih _ hks hready1
      refine ⟨s1, ?_, by simpa [ClientManager.setChan] using hcl, ?_⟩
      · simpa [rangeLoop, ClientManager.sendTo, hig, Chan.trySend_of_canAccept _ _ hacc]
          using hrun
      · intro c
        rw [hheap c]
        by_cases hck : c = k
        · subst hck; simp [ClientManager.setChan, hk, hig]
        · simp [ClientManager.setChan, hck]

/-- When every visited mailbox other than the excluded one is open, the loop of `send`
does not panic, and where it completes or parks the live set is the one it started
with and every mailbox is open or closed as before. -/
theorem rangeLoop_sendTo_safe (m : Bytes) (ig : ClientPtr) :
    ∀ (keys : List ClientPtr) (s : ClientManager),
      (∀ c ∈ keys, c ≠ ig → (s.heap c).send.closed = false) →
      rangeLoop (ClientManager.sendTo m ig) keys s ≠ .panicked ∧
      ∀ s1, (rangeLoop (ClientManager.sendTo m ig) keys s = .done s1 ∨
             rangeLoop (ClientManager.sendTo m ig) keys s = .blocked s1) →
        s1.clients = s.clients ∧
        ∀ c, (s1.heap c).send.closed = (s.heap c).send.closed := by
  intro keys
  induction keys with
  | nil =>
    intro s _
    refine ⟨by simp [rangeLoop], ?_⟩
    intro s1 h
    simp [rangeLoop] at h
    subst h
    exact ⟨rfl, fun _ => rfl⟩
  | cons k ks ih =>
    intro s hopen
    by_cases hig : k = ig
    · have := ih s (fun c hc hne => hopen c (List.mem_cons_of_mem _ hc) hne)
      simpa [rangeLoop, ClientManager.sendTo, hig] using this
    · have hok := hopen k (List.mem_cons_self _ _) hig
      cases hacc : (s.heap k).send.canAccept
      · -- parks at k
        simp only [rangeLoop, ClientManager.sendTo, hig, ne_eq, not_false_eq_true, if_true,
          Chan.trySend_of_full _ _ hok hacc]
        refine ⟨by simp, ?_⟩
        intro s1 h
        simp at h
        subst h
        exact ⟨rfl, fun _ => rfl⟩
      · have hopen1 : ∀ c ∈ ks, c ≠ ig →
            ((s.setChan k ((s.heap k).send.pushed m)).heap c).send.closed = false := by
          intro c hc hne
          by_cases hck : c = k
          · subst hck; simpa [ClientManager.setChan] using hok
          · simpa [ClientManager.setChan, hck] using hopen c (List.mem_cons_of_mem _ hc) hne
        obtain ⟨hnp, hres⟩ := ih _ hopen1
        simp only [rangeLoop, ClientManager.sendTo, hig, ne_eq, not_false_eq_true, if_true,
          Chan.trySend_of_canAccept _ _ hacc]
        refine ⟨hnp, ?_⟩
        intro s1 h
        obtain ⟨hcl, hclosed⟩ := hres s1 h
        refine ⟨by simpa [ClientManager.setChan] using hcl, ?_⟩
        intro c
        rw [hclosed c]
        by_cases hck : c = k
        · subst hck; simp [ClientManager.setChan]
        · simp [ClientManager.setChan, hck]

/-! ## The register case -/

theorem mem_insert_clients (s : ClientManager) (conn c : ClientPtr) :
    c ∈ (s.insert conn).clients ↔ c = conn ∨ c ∈ s.clients := by
  unfold ClientManager.insert
  by_cases h : conn ∈ s.clients
  · simp only [h, if_true]
    constructor
    · exact fun hc => Or.inr hc
    · rintro (rfl | hc)
      · exact h
      · exact hc
  · simp [h]

/-- The register case does not panic when the mailboxes of the live connections are
open, and where it completes or parks the live set is the old one with the new
connection and every mailbox is open or closed as before. -/
theorem registerCase_safe (quote : String → String) (s : ClientManager) (conn : ClientPtr)
    (hopen : ∀ c ∈ s.clients, (s.heap c).send.closed = false) :
    s.registerCase quote conn ≠ .panicked ∧
    ∀ s1, (s.registerCase quote conn = .done s1 ∨ s.registerCase quote conn = .blocked s1) →
      (∀ c, c ∈ s1.clients ↔ c = conn ∨ c ∈ s.clients) ∧
      ∀ c, (s1.heap c).send.closed = (s.heap c).send.closed := by
  have hopen1 : ∀ c ∈ (s.insert conn).clients.dedup, c ≠ conn →
      ((s.insert conn).heap c).send.closed = false := by
    intro c hc hne
    rcases (mem_insert_clients s conn c).mp (List.mem_dedup.mp hc) with h | h
    · exact absurd h hne
    · exact hopen c h
  obtain ⟨hnp, hres⟩ := rangeLoop_sendTo_safe (jsonMarshal quote connectMessage) conn
    (s.insert conn).clients.dedup (s.insert conn) hopen1
  refine ⟨hnp, ?_⟩
  intro s1 h
  obtain ⟨hcl, hclosed⟩ := hres s1 h
  refine ⟨?_, hclosed⟩
  intro c
  rw [hcl]
  exact mem_insert_clients s conn c

/-! ## Sequences of events -/

/-- One broadcast or receive on a registry whose live connections have open mailboxes. -/
theorem step_fanout (quote : String → String) (s : ClientManager) (e : Event)
    (he : e.isFanout = true) (hopen : ∀ c ∈ s.clients, (s.heap c).send.closed = false) :
    ∃ s1, s.step quote e = .done s1 ∧
      (∀ c ∈ s1.clients, c ∈ s.clients) ∧
      (∀ c ∈ s1.clients, (s1.heap c).send.closed = false) ∧
      (∀ c ∈ s1.clients, (s1.heap c).send.sent = (s.heap c).send.sent ++ broadcasts [e]) ∧
      (∀ c, c ∉ s1.clients → (s1.heap c).send.sent = (s.heap c).send.sent) ∧
      (∀ c ∈ s1.clients, (s1.heap c).send =
        match e with
        | .broadcast m => (s.heap c).send.pushed m
        | .recv d => if c = d then (s.heap c).send.recv else (s.heap c).send
        | .register _ => (s.heap c).send) ∧
      (∀ c ∈ s1.clients, ∀ m, e = .broadcast m → (s.heap c).send.canAccept = true) := by
  cases e with
  | register c => simp [Event.isFanout] at he
  | broadcast m =>
    obtain ⟨s1, hrun, hmem, hheap⟩ := broadcastCase_spec s m hopen
    refine ⟨s1, hrun, ?_, ?_, ?_, ?_, ?_, ?_⟩
    · exact fun c hc => ((hmem c).mp hc).1
    · exact broadcastCase_open s s1 m hopen hrun
    · intro c hc
      obtain ⟨hl, hacc⟩ := (hmem c).mp hc
      rw [hheap c]; simp [hl, Chan.offered, hacc, broadcasts]
    · intro c hc
      rw [hheap c]
      by_cases hl : c ∈ s.clients
      · have hacc : (s.heap c).send.canAccept = false := by
          cases h : (s.heap c).send.canAccept
          · rfl
          · exact absurd ((hmem c).mpr ⟨hl, h⟩) hc
        simp [hl, Chan.offered, hacc]
      · simp [hl]
    · intro c hc
      obtain ⟨hl, hacc⟩ := (hmem c).mp hc
      rw [hheap c]; simp [hl, Chan.offered, hacc]
    · intro c hc m1 _
      exact ((hmem c).mp hc).2
  | recv d =>
    refine ⟨_, rfl, ?_, ?_, ?_, ?_, ?_, ?_⟩
    · exact fun c hc => hc
    · intro c hc
      by_cases hcd : c = d
      · subst hcd; simpa [ClientManager.setChan] using hopen c hc
      · simpa [ClientManager.setChan, hcd] using hopen c hc
    · intro c _
      by_cases hcd : c = d
      · subst hcd; simp [ClientManager.setChan, broadcasts]
      · simp [ClientManager.setChan, hcd, broadcasts]
    · intro c _
      by_cases hcd : c = d
      · subst hcd; simp [ClientManager.setChan]
      · simp [ClientManager.setChan, hcd]
    · intro c _
      by_cases hcd : c = d
      · subst hcd; simp [ClientManager.setChan]
      · simp [ClientManager.setChan, hcd]
    · intro c _ m1 h
      cases h

/-- A sequence of broadcasts and receives on a registry whose live connections have
open mailboxes runs to completion; no connection is added, the live mailboxes stay
open, a connection still live has got exactly the broadcast messages, in order, and a
connection that was not live has got nothing. -/
theorem run_fanout (quote : String → String) :
    ∀ (es : List Event) (s : ClientManager), (∀ e ∈ es, e.isFanout = true) →
      (∀ c ∈ s.clients, (s.heap c).send.closed = false) →
      ∃ s1, ClientManager.run quote es s = .done s1 ∧
        (∀ c ∈ s1.clients, c ∈ s.clients) ∧
        (∀ c ∈ s1.clients, (s1.heap c).send.closed = false) ∧
        (∀ c ∈ s1.clients, (s1.heap c).send.sent = (s.heap c).send.sent ++ broadcasts es) ∧
        (∀ c, c ∉ s.clients → (s1.heap c).send.sent = (s.heap c).send.sent) := by
  intro es
  induction es with
  | nil => intro s _ hopen; exact ⟨s, rfl, fun _ h => h, hopen, by simp [broadcasts], fun _ _ => rfl⟩
  | cons e es ih =>
    intro s hes hopen
    obtain ⟨s1, hstep, hsub1, hopen1, hsent1, hout1, _, _⟩ :=
      step_fanout quote s e (hes e (List.mem_cons_self _ _)) hopen
    obtain ⟨s2, hrun, hsub2, hopen2, hsent2, hout2⟩ :=
      ih s1 (fun e1 h1 => hes e1 (List.mem_cons_of_mem _ h1)) hopen1
    refine ⟨s2, by simp [ClientManager.run, hstep, hrun], ?_, hopen2, ?_, ?_⟩
    · exact fun c hc => hsub1 c (hsub2 c hc)
    · intro c hc
      rw [hsent2 c hc, hsent1 c (hsub2 c hc), List.append_assoc]
      congr 1
      cases e <;> simp [broadcasts]
    · intro c hc
      have hc1 : c ∉ s1.clients := fun h => hc (hsub1 c h)
      rw [hout2 c hc1, hout1 c hc1]

/-- Registrations of distinct connections that are not live and have open mailboxes,
mixed with broadcasts and receives, never panic, and in the state where the sequence
ends (completed or parked) every live connection has an open mailbox. -/
theorem run_safe (quote : String → String) :
    ∀ (es : List Event) (s : ClientManager),
      (∀ c ∈ s.clients, (s.heap c).send.closed = false) →
      (registered es).Nodup →
      (∀ c ∈ registered es, c ∉ s.clients ∧ (s.heap c).send.closed = false) →
      ClientManager.run quote es s ≠ .panicked ∧
      ∀ s1, (ClientManager.run quote es s = .done s1 ∨
             ClientManager.run quote es s = .blocked s1) →
        ∀ c ∈ s1.clients, (s1.heap c).send.closed = false := by
  intro es
  induction es with
  | nil =>
    intro s hopen _ _
    refine ⟨by simp [ClientManager.run], ?_⟩
    intro s1 h
    simp [ClientManager.run] at h
    subst h
    exact hopen
  | cons e es ih =>
    intro s hopen hnd hnew
    cases e with
    | register conn =>
      simp only [registered, List.nodup_cons] at hnd
      obtain ⟨hnp, hres⟩ := registerCase_safe quote s conn hopen
      simp only [ClientManager.run, ClientManager.step]
      cases hout : s.registerCase quote conn with
      | done s1 =>
        obtain ⟨hcl, hclosed⟩ := hres s1 (Or.inl hout)
        apply ih s1
        · intro c hc
          rw [hclosed c]
          rcases (hcl c).mp hc with h | h
          · subst h; exact (hnew c (by simp [registered])).2
          · exact hopen c h
        · exact hnd.2
        · intro c hc
          have hc0 := hnew c (by simp [registered, hc])
          refine ⟨fun h => ?_, by rw [hclosed c]; exact hc0.2⟩
          rcases (hcl c).mp h with h | h
          · subst h; exact hnd.1 hc
          · exact hc0.1 h
      | blocked s1 =>
        obtain ⟨hcl, hclosed⟩ := hres s1 (Or.inr hout)
        refine ⟨by simp, ?_⟩
        intro s2 h
        simp at h
        subst h
        intro c hc
        rw [hclosed c]
        rcases (hcl c).mp hc with h | h
        · subst h; exact (hnew c (by simp [registered])).2
        · exact hopen c h
      | panicked => exact absurd hout hnp
    | broadcast m =>
      obtain ⟨s1, hrun, hmem, hheap⟩ := broadcastCase_spec s m hopen
      simp only [ClientManager.run, ClientManager.step, hrun]
      apply ih s1 (broadcastCase_open s s1 m hopen hrun)
      · simpa [registered] using hnd
      · intro c hc
        have hc0 := hnew c (by simpa [registered] using hc)
        refine ⟨fun h => hc0.1 ((hmem c).mp h).1, ?_⟩
        rw [hheap c]; simpa [hc0.1] using hc0.2
    | recv d =>
      simp only [ClientManager.run, ClientManager.step]
      apply ih
      · intro c hc
        by_cases hcd : c = d
        · subst hcd; simpa [ClientManager.setChan] using hopen c hc
        · simpa [ClientManager.setChan, hcd] using hopen c hc
      · simpa [registered] using hnd
      · intro c hc
        have hc0 := hnew c (by simpa [registered] using hc)
        refine ⟨hc0.1, ?_⟩
        by_cases hcd : c = d
        · subst hcd; simpa [ClientManager.setChan] using hc0.2
        · simpa [ClientManager.setChan, hcd] using hc0.2

theorem registered_append (a b : List Event) :
    registered (a ++ b) = registered a ++ registered b := by
  induction a with
  | nil => rfl
  | cons e a ih => cases e <;> simp [registered, ih]

/-! ## Reads and the buffer -/

theorem Chan.nread_le_pushed (ch : Chan) (m : Bytes) : ch.nread ≤ (ch.pushed m).nread := by
  unfold Chan.pushed; split <;> simp

theorem Chan.nread_le_recv (ch : Chan) : ch.nread ≤ ch.recv.nread := by
  unfold Chan.recv; split
  · simp
  · split <;> simp

/-- A completed send that was not handed to a receiver went into the buffer, which had
room. -/
theorem Chan.pushed_noread (ch : Chan) (m : Bytes) (hacc : ch.canAccept = true)
    (h : (ch.pushed m).nread = ch.nread) :
    (ch.pushed m).buf.length = ch.buf.length + 1 ∧ (ch.pushed m).buf.length ≤ ch.cap := by
  unfold Chan.canAccept at hacc
  unfold Chan.pushed at h ⊢
  cases hr : ch.recvq
  · simp [hr] at hacc ⊢
    omega
  · simp [hr] at h

/-- A receive that returned no value left the buffer as it was. -/
theorem Chan.recv_noread (ch : Chan) (h : ch.recv.nread = ch.nread) :
    ch.recv.buf.length = ch.buf.length := by
  unfold Chan.recv at h ⊢
  split
  · rename_i x rest hb
    simp [hb] at h
  · split <;> simp_all

/-- Along broadcasts and receives the number of values read from the mailbox of a
connection that stays live does not go down and the capacity stays; when nothing was
read, every broadcast has added one value to the buffer, within the capacity. -/
theorem run_fanout_noread (quote : String → String) (R : ClientPtr) :
    ∀ (es : List Event) (s s1 : ClientManager), (∀ e ∈ es, e.isFanout = true) →
      (∀ c ∈ s.clients, (s.heap c).send.closed = false) →
      ClientManager.run quote es s = .done s1 → R ∈ s1.clients →
      (s.heap R).send.nread ≤ (s1.heap R).send.nread ∧
      (s1.heap R).send.cap = (s.heap R).send.cap ∧
      ((s1.heap R).send.nread = (s.heap R).send.nread →
        (s1.heap R).send.buf.length = (s.heap R).send.buf.length + (broadcasts es).length ∧
        (broadcasts es ≠ [] → (s1.heap R).send.buf.length ≤ (s.heap R).send.cap)) := by
  intro es
  induction es with
  | nil =>
    intro s s1 _ _ hrun _
    simp [ClientManager.run] at hrun
    subst hrun
    simp [broadcasts]
  | cons e es ih =>
    intro s s2 hes hopen hrun hR
    obtain ⟨s1, hstep, hsub1, hopen1, _, _, hchan, hacc⟩ :=
      step_fanout quote s e (hes e (List.mem_cons_self _ _)) hopen
    have hes1 : ∀ e1 ∈ es, e1.isFanout = true := fun e1 h1 => hes e1 (List.mem_cons_of_mem _ h1)
    have hrun1 : ClientManager.run quote es s1 = .done s2 := by
      simpa [ClientManager.run, hstep] using hrun
    obtain ⟨s2a, hrun2, hsub2, _, _, _⟩ := run_fanout quote es s1 hes1 hopen1
    rw [hrun1] at hrun2
    cases hrun2
    have hR1 : R ∈ s1.clients := hsub2 R hR
    obtain ⟨hle, hcap, hbuf⟩ := ih s1 s2 hes1 hopen1 hrun1 hR
    have hch := hchan R hR1
    cases e with
    | register c => simp [Event.isFanout] at hes
    | broadcast m =>
      simp only at hch
      have ha := hacc R hR1 m rfl
      have hle1 : (s.heap R).send.nread ≤ (s1.heap R).send.nread := by
        rw [hch]; exact Chan.nread_le_pushed _ _
      have hcap1 : (s1.heap R).send.cap = (s.heap R).send.cap := by rw [hch]; simp
      refine ⟨le_trans hle1 hle, by rw [hcap, hcap1], ?_⟩
      intro heq
      have h1 : (s1.heap R).send.nread = (s.heap R).send.nread := by omega
      have h2 : (s2.heap R).send.nread = (s1.heap R).send.nread := by omega
      obtain ⟨hb2, hb2c⟩ := hbuf h2
      have hp : ((s.heap R).send.pushed m).nread = (s.heap R).send.nread := by
        rw [← hch]; exact h1
      obtain ⟨hp1, hp2⟩ := Chan.pushed_noread _ m ha hp
      rw [← hch] at hp1 hp2
      refine ⟨by simp only [broadcasts, List.length_cons]; omega, fun _ => ?_⟩
      by_cases hne : broadcasts es = []
      · rw [hne] at hb2
        simp at hb2
        omega
      · have := hb2c hne
        omega
    | recv d =>
      simp only at hch
      have hle1 : (s.heap R).send.nread ≤ (s1.heap R).send.nread := by
        rw [hch]; split
        · exact Chan.nread_le_recv _
        · exact le_refl _
      have hcap1 : (s1.heap R).send.cap = (s.heap R).send.cap := by
        rw [hch]; split <;> simp
      refine ⟨le_trans hle1 hle, by rw [hcap, hcap1], ?_⟩
      intro heq
      have h1 : (s1.heap R).send.nread = (s.heap R).send.nread := by omega
      have h2 : (s2.heap R).send.nread = (s1.heap R).send.nread := by omega
      obtain ⟨hb2, hb2c⟩ := hbuf h2
      have hb1 : (s1.heap R).send.buf.length = (s.heap R).send.buf.length := by
        rw [hch] at h1 ⊢
        split
        · rename_i hRd
          rw [if_pos hRd] at h1
          exact Chan.recv_noread _ h1
        · rfl
      refine ⟨by simp only [broadcasts]; omega, fun hne => ?_⟩
      have := hb2c (by simpa [broadcasts] using hne)
      omega

/-! ## Broadcast: witness of C1 -/

/-- C1, witness: A can accept and B cannot. -/
theorem broadcast_enqueue_or_evict_witness :
    (∀ c ∈ registryAB.clients, (registryAB.heap c).send.closed = false) ∧
    ∃ s1, registryAB.broadcastCase "m" = .done s1 ∧
      (∀ c ∈ registryAB.clients, (registryAB.heap c).send.canAccept = true →
        c ∈ s1.clients ∧ (s1.heap c).send.sent = (registryAB.heap c).send.sent ++ ["m"] ∧
        (s1.heap c).send.closed = false) ∧
      (∀ c ∈ registryAB.clients, (registryAB.heap c).send.canAccept = false →
        c ∉ s1.clients ∧ (s1.heap c).send.sent = (registryAB.heap c).send.sent ∧
        (s1.heap c).send.closed = true) ∧
      (∀ c, c ∈ s1.clients → c ∈ registryAB.clients) ∧
      (∀ c, c ∉ registryAB.clients → s1.heap c = registryAB.heap c) :=
  ⟨by decide, broadcast_enqueue_or_evict registryAB "m" (by decide)⟩

/-! ## Unregister (C2) -/

/-- C2. The `select` of `start` has no case that receives from `manager.unregister`:
whatever the registry and the connection, an Unregister request is never taken, so no
connection leaves the live set through it. -/
theorem unregister_never_received (quote : String → String) (s : ClientManager)
    (conn : ClientPtr) : s.start quote (.unregister conn) = none := rfl

/-! ## Relay of a client message (C3) -/

/-- C3 as stated fails: with A and B live, A ready and B busy, the message A sent is
enqueued on the mailbox of A itself and not on the mailbox of B. -/
theorem relay_counterexample :
    1 ∈ registryAB.clients ∧ 2 ∈ registryAB.clients ∧
    ∃ s1, registryAB.broadcastCase
        (Client.readMessage plainQuote (registryAB.heap 1) "hello") = .done s1 ∧
      (s1.heap 1).send.sent = [Client.readMessage plainQuote (registryAB.heap 1) "hello"] ∧
      (registryAB.heap 1).send.sent = [] ∧
      (s1.heap 2).send.sent = [] := by
  refine ⟨by decide, by decide, _, rfl, ?_, ?_, ?_⟩ <;> decide

/-- C3, amended. When the control loop processes the message the read pump of a live
connection A built from a payload (sender the id of A, content the payload), the encoded
message is appended to the mailbox of every live connection whose mailbox can accept it
without blocking, and such a connection stays live; the mailbox of A is treated like
every other. -/
theorem relay_to_every_ready_connection (quote : String → String) (s : ClientManager)
    (A : ClientPtr) (payload : String) (hA : A ∈ s.clients)
    (hopen : ∀ c ∈ s.clients, (s.heap c).send.closed = false) :
    ∃ s1, s.broadcastCase (Client.readMessage quote (s.heap A) payload) = .done s1 ∧
      (∀ c ∈ s.clients, (s.heap c).send.canAccept = true →
        c ∈ s1.clients ∧
        (s1.heap c).send.sent =
          (s.heap c).send.sent ++ [Client.readMessage quote (s.heap A) payload]) ∧
      ((s.heap A).send.canAccept = true →
        (s1.heap A).send.sent =
          (s.heap A).send.sent ++ [Client.readMessage quote (s.heap A) payload]) := by
  obtain ⟨s1, hrun, hmem, hheap⟩ :=
    broadcastCase_spec s (Client.readMessage quote (s.heap A) payload) hopen
  have key : ∀ c ∈ s.clients, (s.heap c).send.canAccept = true →
      c ∈ s1.clients ∧
      (s1.heap c).send.sent =
        (s.heap c).send.sent ++ [Client.readMessage quote (s.heap A) payload] := by
    intro c hc hacc
    refine ⟨(hmem c).mpr ⟨hc, hacc⟩, ?_⟩
    rw [hheap c]; simp [hc, Chan.offered, hacc]
  exact ⟨s1, hrun, key, fun hacc => (key A hA hacc).2⟩

/-- C3, witness of the amended statement. -/
theorem relay_to_every_ready_connection_witness :
    1 ∈ registryAB.clients ∧
    (∀ c ∈ registryAB.clients, (registryAB.heap c).send.closed = false) ∧
    ∃ s1, registryAB.broadcastCase
        (Client.readMessage plainQuote (registryAB.heap 1) "hello") = .done s1 ∧
      (∀ c ∈ registryAB.clients, (registryAB.heap c).send.canAccept = true →
        c ∈ s1.clients ∧
        (s1.heap c).send.sent = (registryAB.heap c).send.sent ++
          [Client.readMessage plainQuote (registryAB.heap 1) "hello"]) ∧
      ((registryAB.heap 1).send.canAccept = true →
        (s1.heap 1).send.sent = (registryAB.heap 1).send.sent ++
          [Client.readMessage plainQuote (registryAB.heap 1) "hello"]) :=
  ⟨by decide, by decide,
    relay_to_every_ready_connection plainQuote registryAB 1 "hello" (by decide) (by decide)⟩

/-! ## Register (C4, C5) -/

/-- C4 as stated fails: with connections 1 (busy) and 2 (waiting) live, Register(3) puts
3 in the live set and then parks in `send` at connection 1, whose mailbox has not got
the notification. -/
theorem register_counterexample :
    1 ∈ registryBA.clients ∧
    ∃ s1, registryBA.registerCase plainQuote 3 = .blocked s1 ∧
      3 ∈ s1.clients ∧ 1 ∈ s1.clients ∧ (s1.heap 1).send.sent = [] := by
  refine ⟨by decide, _, rfl, ?_, ?_, ?_⟩ <;> decide

/-- C4, amended. When the mailbox of every live connection other than C can accept a
message without blocking, Register(C) completes, the live set is the old one with C, the
notification (the encoding of `connectMessage`: empty sender, content
"/A new socket has connected,") is appended to the mailbox of every other live
connection, and the client C, its mailbox included, is left as it was. -/
theorem register_notifies_ready_others (quote : String → String) (s : ClientManager)
    (C : ClientPtr)
    (hready : ∀ c ∈ s.clients, c ≠ C → (s.heap c).send.canAccept = true) :
    ∃ s1, s.registerCase quote C = .done s1 ∧
      C ∈ s1.clients ∧
      (∀ c, c ∈ s1.clients ↔ c = C ∨ c ∈ s.clients) ∧
      (∀ c ∈ s1.clients, c ≠ C →
        (s1.heap c).send.sent = (s.heap c).send.sent ++ [jsonMarshal quote connectMessage]) ∧
      s1.heap C = s.heap C ∧
      connectMessage.Sender = "" ∧ connectMessage.Content = "/A new socket has connected," := by
  have hready1 : ∀ c ∈ (s.insert C).clients.dedup, c ≠ C →
      ((s.insert C).heap c).send.canAccept = true := by
    intro c hc hne
    rcases (mem_insert_clients s C c).mp (List.mem_dedup.mp hc) with h | h
    · exact absurd h hne
    · exact hready c h hne
  obtain ⟨s1, hrun, hcl, hheap⟩ := rangeLoop_sendTo_ready (jsonMarshal quote connectMessage) C
    (s.insert C).clients.dedup (s.insert C) (List.nodup_dedup _) hready1
  have hmem : ∀ c, c ∈ s1.clients ↔ c = C ∨ c ∈ s.clients := by
    intro c; rw [hcl]; exact mem_insert_clients s C c
  refine ⟨s1, hrun, (hmem C).mpr (Or.inl rfl), hmem, ?_, ?_, rfl, rfl⟩
  · intro c hc hne
    have hc1 : c ∈ (s.insert C).clients.dedup := by
      rw [List.mem_dedup, ← hcl]; exact hc
    rw [hheap c, if_pos ⟨hc1, hne⟩]
    simp [ClientManager.insert]
  · rw [hheap C]
    simp [ClientManager.insert]

/-- C4, witness of the amended statement: connection 1 waits for a message and 2
registers. -/
theorem register_notifies_ready_others_witness :
    (∀ c ∈ (registryOf [1] demoName fun _ => waitingChan).clients, c ≠ 2 →
      (((registryOf [1] demoName fun _ => waitingChan).heap c).send.canAccept = true)) ∧
    ∃ s1, (registryOf [1] demoName fun _ => waitingChan).registerCase plainQuote 2 = .done s1 ∧
      2 ∈ s1.clients ∧
      (∀ c, c ∈ s1.clients ↔ c = 2 ∨ c ∈ (registryOf [1] demoName fun _ => waitingChan).clients) ∧
      (∀ c ∈ s1.clients, c ≠ 2 →
        (s1.heap c).send.sent =
          ((registryOf [1] demoName fun _ => waitingChan).heap c).send.sent ++
            [jsonMarshal plainQuote connectMessage]) ∧
      s1.heap 2 = (registryOf [1] demoName fun _ => waitingChan).heap 2 ∧
      connectMessage.Sender = "" ∧ connectMessage.Content = "/A new socket has connected," :=
  ⟨by decide,
    register_notifies_ready_others plainQuote (registryOf [1] demoName fun _ => waitingChan) 2
      (by decide)⟩

/-- C5, the code at the failing input: connection 1 is live and its mailbox cannot
accept.  Register(2) does not complete: the control loop parks in `send` at connection
1, which is still live, with an open mailbox that got nothing.  The broadcast loop on
the same registry completes, closes that mailbox and removes the connection. -/
theorem register_parks_where_broadcast_evicts :
    (registryBusy.heap 1).send.canAccept = false ∧
    (∃ s1, registryBusy.registerCase plainQuote 2 = .blocked s1 ∧
      1 ∈ s1.clients ∧ (s1.heap 1).send.closed = false ∧ (s1.heap 1).send.sent = []) ∧
    (∃ s2, registryBusy.broadcastCase (jsonMarshal plainQuote connectMessage) = .done s2 ∧
      1 ∉ s2.clients ∧ (s2.heap 1).send.closed = true) := by
  refine ⟨by decide, ⟨_, rfl, ?_, ?_, ?_⟩, ⟨_, rfl, ?_, ?_⟩⟩ <;> decide

/-! ## The encoding of `Message` (C6) -/

/-- C6, the code at the failing input: `omitempty` is in force for `Recipient` and
`Content` but not for `Sender`, whose tag has a blank after the comma, and the connect
notification is encoded with the two members `sender` (empty) and `content`. -/
theorem connect_notification_has_sender_member :
    connectMessage.fields.map Field.omitEmpty = [false, true, true] ∧
    connectMessage.members = [("sender", ""), ("content", "/A new socket has connected,")] := by
  constructor <;> decide

/-! ## The write pump (C9) -/

/-- C9, the code at the failing input: on a transport where every write fails the pump
given two items takes both, attempts both writes, has not returned and has not closed
the transport. -/
theorem write_goes_on_after_failed_write :
    Client.write brokenSocket [.item "a", .item "b"] =
      { socket :=
          { broken := true, closed := false,
            writes := [(.text "a", true), (.text "b", true)] },
        taken := 2, returned := false } := by
  decide

/-! ## Recipients that are never found full -/

/-- A connection that is live, on a registry whose live connections have open
mailboxes, and whose mailbox can accept whenever a broadcast of the sequence reaches it,
is live when the sequence has completed and has got exactly the broadcast messages, in
order. -/
theorem run_fanout_kept (quote : String → String) (R : ClientPtr) :
    ∀ (es : List Event) (s : ClientManager), (∀ e ∈ es, e.isFanout = true) →
      (∀ c ∈ s.clients, (s.heap c).send.closed = false) →
      R ∈ s.clients → (Chan.along R es (s.heap R).send).isSome = true →
      ∃ s1, ClientManager.run quote es s = .done s1 ∧ R ∈ s1.clients ∧
        (s1.heap R).send.sent = (s.heap R).send.sent ++ broadcasts es := by
  intro es
  induction es with
  | nil => intro s _ _ hR _; exact ⟨s, rfl, hR, by simp [broadcasts]⟩
  | cons e es ih =>
    intro s hes hopen hR hroom
    have hes1 : ∀ e1 ∈ es, e1.isFanout = true := fun e1 h1 => hes e1 (List.mem_cons_of_mem _ h1)
    cases e with
    | register c => simp [Event.isFanout] at hes
    | broadcast m =>
      have hacc : (s.heap R).send.canAccept = true := by
        cases h : (s.heap R).send.canAccept
        · simp [Chan.along, Chan.trySend_of_full _ m (hopen R hR) h] at hroom
        · rfl
      obtain ⟨s1, hrun, hmem, hheap⟩ := broadcastCase_spec s m hopen
      have hR1 : R ∈ s1.clients := (hmem R).mpr ⟨hR, hacc⟩
      have hch : (s1.heap R).send = (s.heap R).send.pushed m := by
        rw [hheap R]; simp [hR, Chan.offered, hacc]
      have hroom1 : (Chan.along R es (s1.heap R).send).isSome = true := by
        rw [hch]
        simpa [Chan.along, Chan.trySend_of_canAccept _ m hacc] using hroom
      obtain ⟨s2, hrun2, hR2, hsent2⟩ :=
        ih s1 hes1 (broadcastCase_open s s1 m hopen hrun) hR1 hroom1
      refine ⟨s2, by simp [ClientManager.run, ClientManager.step, hrun, hrun2], hR2, ?_⟩
      rw [hsent2, hch]
      simp [broadcasts]
    | recv d =>
      have hopen1 : ∀ c ∈ (s.setChan d (s.heap d).send.recv).clients,
          ((s.setChan d (s.heap d).send.recv).heap c).send.closed = false := by
        intro c hc
        by_cases hcd : c = d
        · subst hcd; simpa [ClientManager.setChan] using hopen c hc
        · simpa [ClientManager.setChan, hcd] using hopen c hc
      have hch : ((s.setChan d (s.heap d).send.recv).heap R).send =
          if d = R then (s.heap R).send.recv else (s.heap R).send := by
        by_cases hdR : d = R
        · subst hdR; simp [ClientManager.setChan]
        · have hRd : R ≠ d := fun h => hdR h.symm
          simp [ClientManager.setChan, hdR, hRd]
      have hroom1 :
          (Chan.along R es ((s.setChan d (s.heap d).send.recv).heap R).send).isSome = true := by
        rw [hch]
        simpa [Chan.along] using hroom
      obtain ⟨s2, hrun2, hR2, hsent2⟩ :=
        ih (s.setChan d (s.heap d).send.recv) hes1 hopen1 hR hroom1
      refine ⟨s2, by simp [ClientManager.run, ClientManager.step, hrun2], hR2, ?_⟩
      rw [hsent2, hch]
      by_cases hdR : d = R
      · simp [hdR, broadcasts]
      · simp [hdR, broadcasts]

/-- A live connection whose mailbox cannot accept when some broadcast of the sequence
reaches it is outside the live set when the sequence has completed. -/
theorem run_fanout_evicted (quote : String → String) (R : ClientPtr) :
    ∀ (es : List Event) (s : ClientManager), (∀ e ∈ es, e.isFanout = true) →
      (∀ c ∈ s.clients, (s.heap c).send.closed = false) →
      R ∈ s.clients → Chan.along R es (s.heap R).send = none →
      ∃ s1, ClientManager.run quote es s = .done s1 ∧ R ∉ s1.clients := by
  intro es
  induction es with
  | nil => intro s _ _ _ hfull; simp [Chan.along] at hfull
  | cons e es ih =>
    intro s hes hopen hR hfull
    have hes1 : ∀ e1 ∈ es, e1.isFanout = true := fun e1 h1 => hes e1 (List.mem_cons_of_mem _ h1)
    cases e with
    | register c => simp [Event.isFanout] at hes
    | broadcast m =>
      obtain ⟨s1, hrun, hmem, hheap⟩ := broadcastCase_spec s m hopen
      have hopen1 := broadcastCase_open s s1 m hopen hrun
      cases hacc : (s.heap R).send.canAccept
      · -- evicted by this broadcast
        have hR1 : R ∉ s1.clients := by
          intro h
          have := ((hmem R).mp h).2
          rw [hacc] at this
          exact Bool.noConfusion this
        obtain ⟨s2, hrun2, hsub2, _, _, _⟩ := run_fanout quote es s1 hes1 hopen1
        exact ⟨s2, by simp [ClientManager.run, ClientManager.step, hrun, hrun2],
          fun h => hR1 (hsub2 R h)⟩
      · have hR1 : R ∈ s1.clients := (hmem R).mpr ⟨hR, hacc⟩
        have hch : (s1.heap R).send = (s.heap R).send.pushed m := by
          rw [hheap R]; simp [hR, Chan.offered, hacc]
        have hfull1 : Chan.along R es (s1.heap R).send = none := by
          rw [hch]
          simpa [Chan.along, Chan.trySend_of_canAccept _ m hacc] using hfull
        obtain ⟨s2, hrun2, hR2⟩ := ih s1 hes1 hopen1 hR1 hfull1
        exact ⟨s2, by simp [ClientManager.run, ClientManager.step, hrun, hrun2], hR2⟩
    | recv d =>
      have hopen1 : ∀ c ∈ (s.setChan d (s.heap d).send.recv).clients,
          ((s.setChan d (s.heap d).send.recv).heap c).send.closed = false := by
        intro c hc
        by_cases hcd : c = d
        · subst hcd; simpa [ClientManager.setChan] using hopen c hc
        · simpa [ClientManager.setChan, hcd] using hopen c hc
      have hch : ((s.setChan d (s.heap d).send.recv).heap R).send =
          if d = R then (s.heap R).send.recv else (s.heap R).send := by
        by_cases hdR : d = R
        · subst hdR; simp [ClientManager.setChan]
        · have hRd : R ≠ d := fun h => hdR h.symm
          simp [ClientManager.setChan, hdR, hRd]
      have hfull1 :
          Chan.along R es ((s.setChan d (s.heap d).send.recv).heap R).send = none := by
        rw [hch]
        simpa [Chan.along] using hfull
      obtain ⟨s2, hrun2, hR2⟩ := ih (s.setChan d (s.heap d).send.recv) hes1 hopen1 hR hfull1
      exact ⟨s2, by simp [ClientManager.run, ClientManager.step, hrun2], hR2⟩

/-! ## Order per recipient (C7) -/

/-- C7. Take a sequence of Broadcast operations, with receives of the write pumps in
between, on a registry whose live connections have open mailboxes, and a recipient R
that is live at its start and whose mailbox can accept whenever a broadcast of the
sequence reaches it (it is never full).  The sequence runs to completion, R is still
live, and the items the sequence enqueued on the mailbox of R are exactly the broadcast
messages, each once, in the order the control loop processed them. -/
theorem broadcast_order_per_recipient (quote : String → String) (s : ClientManager)
    (es : List Event) (R : ClientPtr) (hes : ∀ e ∈ es, e.isFanout = true)
    (hopen : ∀ c ∈ s.clients, (s.heap c).send.closed = false)
    (hR : R ∈ s.clients)
    (hroom : (Chan.along R es (s.heap R).send).isSome = true) :
    ∃ s1, ClientManager.run quote es s = .done s1 ∧ R ∈ s1.clients ∧
      (s1.heap R).send.sent = (s.heap R).send.sent ++ broadcasts es :=
  run_fanout_kept quote R es s hes hopen hR hroom

/-- C7, witness: the pump of connection 1 receives before each of two broadcasts;
connection 2 is busy and is evicted by the first. -/
theorem broadcast_order_per_recipient_witness :
    (∀ e ∈ [Event.recv 1, .broadcast "a", .recv 1, .broadcast "b"], e.isFanout = true) ∧
    (∀ c ∈ registryAB.clients, (registryAB.heap c).send.closed = false) ∧
    1 ∈ registryAB.clients ∧
    (Chan.along 1 [Event.recv 1, .broadcast "a", .recv 1, .broadcast "b"]
      (registryAB.heap 1).send).isSome = true ∧
    ∃ s1, ClientManager.run plainQuote
        [Event.recv 1, .broadcast "a", .recv 1, .broadcast "b"] registryAB = .done s1 ∧
      1 ∈ s1.clients ∧
      (s1.heap 1).send.sent = (registryAB.heap 1).send.sent ++
        broadcasts [Event.recv 1, .broadcast "a", .recv 1, .broadcast "b"] :=
  ⟨by decide, by decide, by decide, by decide,
    broadcast_order_per_recipient plainQuote registryAB
      [Event.recv 1, .broadcast "a", .recv 1, .broadcast "b"] 1
      (by decide) (by decide) (by decide) (by decide)⟩

/-! ## Eviction under backpressure (C8) -/

/-- C8 as stated fails at the capacity N = 0 of the mailboxes `wsPage` makes.
Connection 1 registers, its pump receives, connection 2 registers (the notification is
handed to the pump of 1, the pump of 2 has not reached its receive).  Then N + 1 = 1
Broadcast is processed and nothing is read from the mailbox of 1: connection 1 is
removed, as the claim says, but connection 2, another live recipient, has not received
the message (its mailbox could not accept it either). -/
theorem eviction_counterexample :
    ∃ s, ClientManager.run plainQuote
        [Event.register 1, .recv 1, .register 2] registryStart = .done s ∧
      1 ∈ s.clients ∧ 2 ∈ s.clients ∧ (s.heap 1).send.cap = 0 ∧
      (broadcasts [Event.broadcast "a"]).length = 0 + 1 ∧
      ∃ s1, ClientManager.run plainQuote [Event.broadcast "a"] s = .done s1 ∧
        (s1.heap 1).send.nread < (s.heap 1).send.nread + (0 + 1) ∧
        1 ∉ s1.clients ∧
        (s1.heap 2).send.sent = [] := by
  refine ⟨_, rfl, ?_, ?_, ?_, ?_, _, rfl, ?_, ?_, ?_⟩ <;> decide

/-- C8, amended. Let R be live with a mailbox of the capacity N that `wsPage` gives
every mailbox (`make(chan []byte)`, N = 0), on a registry whose live connections have
open mailboxes, and let N + 1 Broadcasts be processed, with receives of the write pumps
in between, while fewer than N + 1 items are read from the mailbox of R.  Then the
sequence completes, R has been removed from the live set, after any further Broadcasts
and receives R is still outside the live set and nothing more has been enqueued on its
mailbox; the same holds when the mailbox of R cannot accept at some broadcast of the
sequence.  Every live recipient whose mailbox can accept whenever a broadcast of the
sequence reaches it is still live and has received all N + 1 messages. -/
theorem eviction_under_backpressure (quote : String → String) (N : Nat)
    (s : ClientManager) (R : ClientPtr) (es : List Event)
    (hopen : ∀ c ∈ s.clients, (s.heap c).send.closed = false)
    (hR : R ∈ s.clients) (hcap : (s.heap R).send.cap = N)
    (hmade : (s.heap R).send.cap = (Chan.make 0).cap)
    (hes : ∀ e ∈ es, e.isFanout = true) (hn : (broadcasts es).length = N + 1) :
    ∃ s1, ClientManager.run quote es s = .done s1 ∧
      ((s1.heap R).send.nread < (s.heap R).send.nread + (N + 1) ∨
          Chan.along R es (s.heap R).send = none →
        R ∉ s1.clients ∧
        ∀ later : List Event, (∀ e ∈ later, e.isFanout = true) →
          ∃ s2, ClientManager.run quote later s1 = .done s2 ∧
            R ∉ s2.clients ∧ (s2.heap R).send.sent = (s1.heap R).send.sent) ∧
      (∀ c ∈ s.clients, (Chan.along c es (s.heap c).send).isSome = true →
        c ∈ s1.clients ∧
        (s1.heap c).send.sent = (s.heap c).send.sent ++ broadcasts es ∧
        ((s1.heap c).send.sent.drop (s.heap c).send.sent.length).length = N + 1) := by
  obtain ⟨s1, hrun, hsub, hopen1, hsent, _⟩ := run_fanout quote es s hes hopen
  have hN : N = 0 := by
    rw [← hcap, hmade]; rfl
  refine ⟨s1, hrun, ?_, ?_⟩
  · intro hnr
    have hout : R ∉ s1.clients := by
      rcases hnr with hnr | hfull
      · intro hlive
        obtain ⟨hmono, _, hbuf⟩ := run_fanout_noread quote R es s s1 hes hopen hrun hlive
        have heq : (s1.heap R).send.nread = (s.heap R).send.nread := by omega
        obtain ⟨hlen, hle⟩ := hbuf heq
        have hne : broadcasts es ≠ [] := by
          intro h
          rw [h] at hn
          simp at hn
        have := hle hne
        omega
      · obtain ⟨s1a, hrun1, hR1⟩ := run_fanout_evicted quote R es s hes hopen hR hfull
        rw [hrun] at hrun1
        cases hrun1
        exact hR1
    refine ⟨hout, ?_⟩
    intro later hlater
    obtain ⟨s2, hrun2, hsub2, _, _, hsame⟩ := run_fanout quote later s1 hlater hopen1
    exact ⟨s2, hrun2, fun h => hout (hsub2 R h), hsame R hout⟩
  · intro c hc hroom
    obtain ⟨s1a, hrun1, hc1, hsent1⟩ := run_fanout_kept quote c es s hes hopen hc hroom
    rw [hrun] at hrun1
    cases hrun1
    refine ⟨hc1, hsent1, ?_⟩
    rw [hsent1]
    simp [hn]

/-- C8, witness of the amended statement: one broadcast reaches the busy connection 2
while the pump of connection 1 waits. -/
theorem eviction_under_backpressure_witness :
    (∀ c ∈ registryAB.clients, (registryAB.heap c).send.closed = false) ∧
    2 ∈ registryAB.clients ∧ (registryAB.heap 2).send.cap = 0 ∧
    (registryAB.heap 2).send.cap = (Chan.make 0).cap ∧
    (∀ e ∈ [Event.broadcast "a"], e.isFanout = true) ∧
    (broadcasts [Event.broadcast "a"]).length = 0 + 1 ∧
    (Chan.along 1 [Event.broadcast "a"] (registryAB.heap 1).send).isSome = true ∧
    Chan.along 2 [Event.broadcast "a"] (registryAB.heap 2).send = none ∧
    (∃ s1, ClientManager.run plainQuote [Event.broadcast "a"] registryAB = .done s1 ∧
      (s1.heap 2).send.nread < (registryAB.heap 2).send.nread + (0 + 1) ∧
      2 ∉ s1.clients ∧ 1 ∈ s1.clients ∧ (s1.heap 1).send.sent = ["a"]) ∧
    ∃ s1, ClientManager.run plainQuote [Event.broadcast "a"] registryAB = .done s1 ∧
      ((s1.heap 2).send.nread < (registryAB.heap 2).send.nread + (0 + 1) ∨
          Chan.along 2 [Event.broadcast "a"] (registryAB.heap 2).send = none →
        2 ∉ s1.clients ∧
        ∀ later : List Event, (∀ e ∈ later, e.isFanout = true) →
          ∃ s2, ClientManager.run plainQuote later s1 = .done s2 ∧
            2 ∉ s2.clients ∧ (s2.heap 2).send.sent = (s1.heap 2).send.sent) ∧
      (∀ c ∈ registryAB.clients,
        (Chan.along c [Event.broadcast "a"] (registryAB.heap c).send).isSome = true →
        c ∈ s1.clients ∧
        (s1.heap c).send.sent =
          (registryAB.heap c).send.sent ++ broadcasts [Event.broadcast "a"] ∧
        ((s1.heap c).send.sent.drop (registryAB.heap c).send.sent.length).length = 0 + 1) :=
  ⟨by decide, by decide, by decide, by decide, by decide, by decide, by decide, by decide,
    ⟨_, rfl, by decide, by decide, by decide, by decide⟩,
    eviction_under_backpressure plainQuote 0 registryAB 2 [Event.broadcast "a"]
      (by decide) (by decide) (by decide) (by decide) (by decide) (by decide)⟩

/-! ## Open mailboxes in the live set (C10) -/

/-- C10. Start from the empty live set and process Register and Broadcast operations,
with receives of the write pumps in between, in which every connection is registered at
most once and with an open mailbox.  After every prefix of the sequence the control loop
has not panicked (a second `close` of a mailbox and a send on a closed mailbox both
panic, so neither is ever attempted), and in the state reached, whether the loop
completed the prefix or is parked in `send`, every live connection has an open
mailbox. -/
theorem live_mailboxes_stay_open (quote : String → String) (s0 : ClientManager)
    (es : List Event) (hempty : s0.clients = [])
    (honce : (registered es).Nodup)
    (hopen : ∀ c ∈ registered es, (s0.heap c).send.closed = false) :
    ∀ pre, pre <+: es →
      ClientManager.run quote pre s0 ≠ .panicked ∧
      ∀ s, (ClientManager.run quote pre s0 = .done s ∨
            ClientManager.run quote pre s0 = .blocked s) →
        ∀ c ∈ s.clients, (s.heap c).send.closed = false := by
  intro pre hpre
  obtain ⟨t, rfl⟩ := hpre
  rw [registered_append] at honce hopen
  apply run_safe quote pre s0
  · intro c hc
    rw [hempty] at hc
    cases hc
  · exact (List.nodup_append.mp honce).1
  · intro c hc
    refine ⟨by rw [hempty]; simp, hopen c (List.mem_append_left _ hc)⟩

/-- C10, witness: two connections register, the first with its pump waiting, and two
broadcasts follow; the second broadcast evicts both. -/
theorem live_mailboxes_stay_open_witness :
    registryStart.clients = [] ∧
    (registered [Event.register 1, .recv 1, .register 2, .broadcast "a",
      .broadcast "b"]).Nodup ∧
    (∀ c ∈ registered [Event.register 1, .recv 1, .register 2, .broadcast "a",
      .broadcast "b"], (registryStart.heap c).send.closed = false) ∧
    ∀ pre, pre <+: [Event.register 1, .recv 1, .register 2, .broadcast "a", .broadcast "b"] →
      ClientManager.run plainQuote pre registryStart ≠ .panicked ∧
      ∀ s, (ClientManager.run plainQuote pre registryStart = .done s ∨
            ClientManager.run plainQuote pre registryStart = .blocked s) →
        ∀ c ∈ s.clients, (s.heap c).send.closed = false :=
  ⟨by decide, by decide, by decide,
    live_mailboxes_stay_open plainQuote registryStart
      [Event.register 1, .recv 1, .register 2, .broadcast "a", .broadcast "b"]
      (by decide) (by decide) (by decide)⟩

end ChatServer
